import Mathlib

/-!
Verification of the data-fetcher program (`src/main.py`) against its
natural-language specification.

The development shallowly embeds the program's data model and the four
components named by the spec — the Latest-Record Reducer
(`build_last_production_from_stock`), the Resilient Fetcher (`fetch_json`),
the Atomic Store (`read_json` / `write_json`), and the Orchestrator
(`main`, modelled as `runMain`) — and proves the spec's testable
properties about them.

Python values occurring in the JSON payloads are modelled by `JValue`
(JSON numbers are modelled as integers; no claim depends on float
payloads).  Python dicts are modelled as insertion-ordered association
lists with unique keys, which is how CPython dicts behave for the
payloads this program builds.
-/

/-- A JSON value as manipulated by the Python program. -/
inductive JValue where
  | null
  | bool (b : Bool)
  | num (n : Int)
  | str (s : String)
  | arr (elems : List JValue)
  | obj (fields : List (String × JValue))
deriving Repr

/-- Python truthiness (`bool(v)`) restricted to JSON values. -/
def truthy : JValue → Bool
  | .null => false
  | .bool b => b
  | .num n => n != 0
  | .str s => s != ""
  | .arr xs => !xs.isEmpty
  | .obj kvs => !kvs.isEmpty

mutual

/-- Python `repr` of a JSON value.  CPython additionally escapes quotes,
backslashes and control characters inside string payloads and may choose
double quotes; that refinement is irrelevant here because the program only
ever inspects these representations through `str()` followed by `strip()`,
and container representations always start and end with a bracket. -/
def pyRepr : JValue → String
  | .null => "None"
  | .bool true => "True"
  | .bool false => "False"
  | .num n => toString n
  | .str s => "\x27" ++ s ++ "\x27"
  | .arr xs => "[" ++ pyReprElems xs ++ "]"
  | .obj kvs => "\x7b" ++ pyReprFields kvs ++ "\x7d"

/-- Comma-separated `repr`s of list elements, as in Python `repr(list)`. -/
def pyReprElems : List JValue → String
  | [] => ""
  | [v] => pyRepr v
  | v :: rest => pyRepr v ++ ", " ++ pyReprElems rest

/-- Comma-separated `repr`s of dict items, as in Python `repr(dict)`. -/
def pyReprFields : List (String × JValue) → String
  | [] => ""
  | [(k, v)] => "\x27" ++ k ++ "\x27: " ++ pyRepr v
  | (k, v) :: rest => "\x27" ++ k ++ "\x27: " ++ pyRepr v ++ ", " ++ pyReprFields rest

end

/-- Python `str(v)` for a JSON value: the identity on strings, `repr`
otherwise. -/
def pyStr : JValue → String
  | .str s => s
  | v => pyRepr v

/-- Characters removed by Python `str.strip()` (the ASCII whitespace set;
`strip` also removes the rarer Unicode space characters, which no claim
exercises). -/
def isPySpace (c : Char) : Bool :=
  c = ' ' || c = '\t' || c = '\n' || c = '\r' || c = '\x0b' || c = '\x0c'

/-- Python `s.strip()`. -/
def pyStrip (s : String) : String :=
  String.mk (((s.toList.dropWhile isPySpace).reverse.dropWhile isPySpace).reverse)

/-- A calendar date as produced by `datetime.date`. -/
structure PDate where
  year : Nat
  month : Nat
  day : Nat
deriving Repr, DecidableEq

/-- Python `date` comparison: lexicographic on (year, month, day). -/
def PDate.lt (a b : PDate) : Bool :=
  decide (a.year < b.year) ||
    (decide (a.year = b.year) &&
      (decide (a.month < b.month) ||
        (decide (a.month = b.month) && decide (a.day < b.day))))

/-- Gregorian leap-year rule used by `datetime`. -/
def isLeap (y : Nat) : Bool :=
  y % 4 == 0 && (y % 100 != 0 || y % 400 == 0)

/-- Number of days in a month, as validated by `datetime`. -/
def daysInMonth (y m : Nat) : Nat :=
  if m = 2 then (if isLeap y then 29 else 28)
  else if m = 4 || m = 6 || m = 9 || m = 11 then 30
  else 31

/-- True when the character group is nonempty and all digits. -/
def digitsOnly (cs : List Char) : Bool :=
  !cs.isEmpty && cs.all Char.isDigit

/-- Numeric value of a decimal digit group. -/
def digitsToNat (cs : List Char) : Nat :=
  cs.foldl (fun acc c => acc * 10 + (c.toNat - 48)) 0

/-- Split a character list on a separator character, keeping empty groups,
with the semantics of Python `s.split(sep)` for a single-character
separator (and of `String.splitOn`, stated structurally so that it
evaluates by kernel reduction). -/
def splitOnChar (c : Char) : List Char → List (List Char)
  | [] => [[]]
  | x :: xs =>
    match splitOnChar c xs with
    | [] => if x = c then [[], []] else [[x]]
    | g :: gs => if x = c then [] :: g :: gs else (x :: g) :: gs

/-- The date parser of the reducer: `datetime.fromisoformat(s).date()` with a
`strptime(s, "%Y-%m-%d")` fallback.  The union of the two accepts a dash-
separated year-month-day form (year up to 4 digits, month and day up to 2)
denoting a valid calendar date; anything else yields `none`.
`fromisoformat` additionally accepts forms with a time-of-day component,
which is discarded by `.date()`; no claim depends on those inputs, which
still yield a plain calendar date. -/
def parseDate (s : String) : Option PDate :=
  match splitOnChar '-' s.toList with
  | [ys, ms, ds] =>
    if digitsOnly ys && digitsOnly ms && digitsOnly ds
        && decide (ys.length ≤ 4) && decide (ms.length ≤ 2) && decide (ds.length ≤ 2) then
      let y := digitsToNat ys
      let m := digitsToNat ms
      let d := digitsToNat ds
      if decide (1 ≤ y) && decide (1 ≤ m) && decide (m ≤ 12)
          && decide (1 ≤ d) && decide (d ≤ daysInMonth y m) then
        some ⟨y, m, d⟩
      else none
    else none
  | _ => none

/-- A Raw Record: one element of the payload's `data` list, i.e. a Python
dict modelled as an insertion-ordered association list. -/
abbrev Entry := List (String × JValue)

/-- Python `e.get(k)`: the value at the first matching key, `None` when the
key is missing. -/
def jGet (e : Entry) (k : String) : JValue :=
  match e.find? (fun kv => kv.1 == k) with
  | some kv => kv.2
  | none => .null

/-- Python `a or b`. -/
def jOr (a b : JValue) : JValue := if truthy a then a else b

/-- Python `a or None`: falsy values collapse to `None`. -/
def orNone (a : JValue) : JValue := if truthy a then a else .null

/-- Key normalization applied to a raw `kode_produk` value:
`str(v or "").strip()` (lines 161-162 of the source). -/
def normCode (v : JValue) : String := pyStrip (pyStr (jOr v (.str "")))

/-- The normalized product-code key of a record. -/
def prodKey (e : Entry) : String := normCode (jGet e "kode_produk")

/-- The parsed date of a record (lines 167-178): the `srs_date` field,
null-coalesced to `""`, parsed only when it is a nonempty string. -/
def entryDate (e : Entry) : Option PDate :=
  match jOr (jGet e "srs_date") (.str "") with
  | .str s => if s == "" then none else parseDate s
  | _ => none

/-- The Latest-Production Index `latest_map`: a Python dict from normalized
product code to (parsed date, winning record), modelled as an
insertion-ordered association list. -/
abbrev Index := List (String × Option PDate × Entry)

/-- Python `latest_map.get(k)`. -/
def lookupIdx : Index → String → Option (Option PDate × Entry)
  | [], _ => none
  | kv :: rest, k => if kv.1 == k then some kv.2 else lookupIdx rest k

/-- Python `latest_map[k] = v`: replace in place when the key is present
(dict assignment keeps the slot's position), append otherwise. -/
def setIdx : Index → String → Option PDate × Entry → Index
  | [], k, v => [(k, v)]
  | kv :: rest, k, v => if kv.1 == k then (k, v) :: rest else kv :: setIdx rest k v

/-- One iteration of the reducer's loop body (lines 159-191): drop records
with an empty normalized key; seed an absent slot unconditionally; replace
an existing slot only when the candidate's date is present and the existing
date is absent or strictly earlier. -/
def step (m : Index) (e : Entry) : Index :=
  let k := prodKey e
  if k == "" then m
  else
    let d := entryDate e
    match lookupIdx m k with
    | none => setIdx m k (d, e)
    | some (prevD, _) =>
      match d, prevD with
      | some dd, none => setIdx m k (some dd, e)
      | some dd, some pd => if PDate.lt pd dd then setIdx m k (some dd, e) else m
      | none, _ => m

/-- The index built by the reducer's single linear pass. -/
def buildIndex (es : List Entry) : Index := es.foldl step []

/-- A Production Snapshot: the output dict with keys `date`, `customer`,
`product_code` (lines 196-200).  Each field is `JValue.null` exactly when
the source's `or None` produced Python `None`. -/
structure Snapshot where
  date : JValue
  customer : JValue
  product_code : JValue
deriving Repr

/-- Projection of a winning record to a Production Snapshot (lines 196-200):
each field is the raw value with falsy values replaced by `None`. -/
def project (e : Entry) : Snapshot :=
  { date := orNone (jGet e "srs_date")
  , customer := orNone (jGet e "srs_customer")
  , product_code := orNone (jGet e "kode_produk") }

/-- Constructor rank, used to totalize the sort-key order below. -/
def JValue.rank : JValue → Nat
  | .null => 0
  | .bool _ => 1
  | .num _ => 2
  | .str _ => 3
  | .arr _ => 4
  | .obj _ => 5

/-- Order on sort keys.  CPython's `list.sort` compares the raw key objects:
string keys compare lexicographically by code point (the `str`/`str` case
here, which is the only case reachable under the documented payload shape,
where every kept key is a distinct truthy value whose `product_code` field
is a string); integer keys compare numerically; comparisons of mutually
unorderable keys raise `TypeError`, a path modelled separately by
`sortSnapsE` below.  The rank fallback makes this order total so the
raise-free sort value is a function; no theorem depends on the order the
fallback branch picks. -/
def keyLE (a b : JValue) : Bool :=
  match a, b with
  | .str s, .str t => decide (s ≤ t)
  | .num m, .num n => decide (m ≤ n)
  | a, b => decide (a.rank ≤ b.rank)

/-- The sort key of line 203: `x.get("product_code") or ""`. -/
def snapKey (x : Snapshot) : JValue := jOr x.product_code (.str "")

/-- The sort relation on snapshots. -/
def snapR (x y : Snapshot) : Prop := keyLE (snapKey x) (snapKey y) = true

instance : DecidableRel snapR := fun _ _ => decEq _ _

/-- The final sort of line 203.  CPython uses a stable Timsort; since every
reachable key multiset is duplicate-free (distinct index keys come from
distinct raw `kode_produk` values), any correct sort produces the same
list, and insertion sort is used here. -/
def sortSnaps (l : List Snapshot) : List Snapshot := List.insertionSort snapR l

/-- The reducer on an already well-shaped record list: build the index,
project every slot, sort by product code.  This is the value the reducer
returns whenever the sort raises no `TypeError`; `sortSnapsE` below adds
that raise path for the payload-level function. -/
def reduceRecords (es : List Entry) : List Snapshot :=
  sortSnaps ((buildIndex es).map (fun kv => project kv.2.2))

/-- A Python exception escaping the reducer or the store. -/
inductive PyError where
  | attributeError
  | typeError
  | unicodeDecodeError
deriving Repr, DecidableEq

/-- True when Python `a < b` and `b < a` raise no `TypeError` for two sort
keys.  Strings compare with strings; numbers and `True` compare among
themselves (`bool` is an `int`; `False` cannot occur as a key since falsy
codes collapse to `""`); dicts are unorderable even with each other, and
`None` (unreachable as a key) is unorderable with everything.  Comparison
of two lists recurses elementwise in CPython and can itself raise on
mixed element types; that within-class case is approximated as orderable
here, and no theorem depends on it. -/
def mutOrderable (a b : JValue) : Bool :=
  match a, b with
  | .str _, .str _ => true
  | .num _, .num _ => true
  | .num _, .bool _ => true
  | .bool _, .num _ => true
  | .bool _, .bool _ => true
  | .arr _, .arr _ => true
  | _, _ => false

/-- True when every pair of sort keys of the list is mutually orderable. -/
def sortKeysOrderable (l : List Snapshot) : Bool :=
  l.all (fun x => l.all (fun y => mutOrderable (snapKey x) (snapKey y)))

/-- The final sort of line 203 with its raise path.  CPython's `list.sort`
raises `TypeError` exactly when it performs a comparison of two mutually
unorderable keys: a list of at most one element is never compared, and
when at least two elements include an unorderable pair the sort cannot
complete without comparing that pair, because in this key space no key can
be strictly between two unorderable keys (unorderable scalar keys belong
to disjoint comparability classes, and unorderable list keys share the
prefix up to their raising position), so every comparison schedule of a
correct sort reaches one.  On the raise-free branch the result is
`sortSnaps`. -/
def sortSnapsE (l : List Snapshot) : Except PyError (List Snapshot) :=
  if decide (l.length ≤ 1) || sortKeysOrderable l then .ok (sortSnaps l)
  else .error .typeError

/-- Python `e.get(...)` requires `e` to be a dict; any other payload raises
`AttributeError` (line 161 on a non-object entry). -/
def asEntry : JValue → Except PyError Entry
  | .obj kvs => .ok kvs
  | _ => .error .attributeError

/-- Python `d.get(k, dflt)` on a dict value. -/
def jGetD (v : JValue) (k : String) (dflt : JValue) : JValue :=
  match v with
  | .obj kvs =>
    match kvs.find? (fun kv => kv.1 == k) with
    | some kv => kv.2
    | none => dflt
  | _ => dflt

/-- The loop of lines 159-191 starts by calling `e.get` on every entry it
reaches, in order; the first non-dict entry raises and aborts the whole
reduction, discarding the partial index. -/
def collectEntries : List JValue → Except PyError (List Entry)
  | [] => .ok []
  | x :: xs =>
    match asEntry x with
    | .error err => .error err
    | .ok ent =>
      match collectEntries xs with
      | .error err => .error err
      | .ok rest => .ok (ent :: rest)

/-- The reducer `build_last_production_from_stock` (lines 143-204) on an
arbitrary payload.  Falsy or non-dict payloads and non-list `data` fields
degrade to the empty list; a non-dict entry inside `data` raises
(`AttributeError`); the final sort raises (`TypeError`) on mutually
unorderable kept product codes, per `sortSnapsE`. -/
def build_last_production_from_stock (stock_json : JValue) : Except PyError (List Snapshot) :=
  if !truthy stock_json then .ok []
  else
    match stock_json with
    | .obj kvs =>
      match jGetD (.obj kvs) "data" (.arr []) with
      | .arr es =>
        match collectEntries es with
        | .ok recs => sortSnapsE ((buildIndex recs).map (fun kv => project kv.2.2))
        | .error err => .error err
      | _ => .ok []
    | _ => .ok []


/-!
Index bookkeeping lemmas.  `keys` lists the normalized product codes held
by the Latest-Production Index in slot order.
-/

/-- The key list of an index. -/
def keys (m : Index) : List String := m.map Prod.fst

theorem keys_nil : keys [] = [] := rfl

theorem keys_cons (kv : String × Option PDate × Entry) (rest : Index) :
    keys (kv :: rest) = kv.1 :: keys rest := rfl

theorem lookupIdx_eq_none {m : Index} {k : String} :
    lookupIdx m k = none ↔ k ∉ keys m := by
  induction m with
  | nil => simp [lookupIdx, keys_nil]
  | cons kv rest ih =>
    rw [keys_cons]
    by_cases h : kv.1 = k
    · simp [lookupIdx, beq_iff_eq, h]
    · have hne : ¬ k = kv.1 := fun hh => h hh.symm
      simp [lookupIdx, beq_iff_eq, h, List.mem_cons, hne, ih]

theorem lookupIdx_some_mem_keys {m : Index} {k : String} {p : Option PDate × Entry}
    (h : lookupIdx m k = some p) : k ∈ keys m := by
  by_contra hk
  rw [← lookupIdx_eq_none] at hk
  simp [hk] at h

theorem mem_keys_setIdx {m : Index} {k k2 : String} {v : Option PDate × Entry} :
    k2 ∈ keys (setIdx m k v) ↔ k2 ∈ keys m ∨ k2 = k := by
  induction m with
  | nil => simp [setIdx, keys_cons, keys_nil]
  | cons kv rest ih =>
    by_cases h : kv.1 = k
    · simp only [setIdx, beq_iff_eq, h, if_true, keys_cons, List.mem_cons]
      tauto
    · simp only [setIdx, beq_iff_eq, if_neg h, keys_cons, List.mem_cons, ih]
      tauto

theorem keys_setIdx_of_mem {m : Index} {k : String} {v : Option PDate × Entry}
    (h : k ∈ keys m) : keys (setIdx m k v) = keys m := by
  induction m with
  | nil => simp [keys_nil] at h
  | cons kv rest ih =>
    by_cases hk : kv.1 = k
    · simp [setIdx, beq_iff_eq, hk, keys_cons]
    · rw [keys_cons, List.mem_cons] at h
      rcases h with h | h
      · exact absurd h.symm hk
      · simp only [setIdx, beq_iff_eq, if_neg hk, keys_cons, ih h]

theorem setIdx_of_not_mem {m : Index} {k : String} {v : Option PDate × Entry}
    (h : k ∉ keys m) : setIdx m k v = m ++ [(k, v)] := by
  induction m with
  | nil => simp [setIdx]
  | cons kv rest ih =>
    rw [keys_cons, List.mem_cons] at h
    push_neg at h
    have hne : ¬ kv.1 = k := fun hh => h.1 hh.symm
    simp only [setIdx, beq_iff_eq, if_neg hne, ih h.2, List.cons_append]

theorem mem_setIdx {m : Index} {k : String} {v : Option PDate × Entry}
    {kv2 : String × Option PDate × Entry} (h : kv2 ∈ setIdx m k v) :
    kv2 ∈ m ∨ kv2 = (k, v) := by
  induction m with
  | nil =>
    simp only [setIdx, List.mem_singleton] at h
    exact Or.inr h
  | cons kv rest ih =>
    by_cases hk : kv.1 = k
    · simp only [setIdx, beq_iff_eq, hk, if_pos rfl] at h
      rcases List.mem_cons.mp h with h | h
      · exact Or.inr h
      · exact Or.inl (List.mem_cons_of_mem _ h)
    · simp only [setIdx, beq_iff_eq, if_neg hk] at h
      rcases List.mem_cons.mp h with h | h
      · exact Or.inl (h ▸ List.mem_cons_self _ _)
      · rcases ih h with h2 | h2
        · exact Or.inl (List.mem_cons_of_mem _ h2)
        · exact Or.inr h2

/-!
Behaviour of one reducer iteration and of the whole linear pass.
-/

theorem step_eq_or_set (m : Index) (e : Entry) :
    step m e = m ∨ (prodKey e ≠ "" ∧ step m e = setIdx m (prodKey e) (entryDate e, e)) := by
  by_cases hk : prodKey e = ""
  · left; simp [step, hk]
  · cases hl : lookupIdx m (prodKey e) with
    | none =>
      right
      refine ⟨hk, ?_⟩
      simp [step, beq_iff_eq, hk, hl]
    | some p =>
      obtain ⟨prevD, pe⟩ := p
      cases hd : entryDate e with
      | none => left; simp [step, beq_iff_eq, hk, hl, hd]
      | some dd =>
        cases prevD with
        | none =>
          right
          refine ⟨hk, ?_⟩
          simp [step, beq_iff_eq, hk, hl, hd]
        | some pd =>
          by_cases hlt : PDate.lt pd dd = true
          · right
            refine ⟨hk, ?_⟩
            simp [step, beq_iff_eq, hk, hl, hd, hlt]
          · left
            simp [step, beq_iff_eq, hk, hl, hd, hlt]

theorem prodKey_mem_keys_step (m : Index) (e : Entry) (h : prodKey e ≠ "") :
    prodKey e ∈ keys (step m e) := by
  cases hl : lookupIdx m (prodKey e) with
  | none =>
    have hstep : step m e = setIdx m (prodKey e) (entryDate e, e) := by
      simp [step, beq_iff_eq, h, hl]
    rw [hstep, mem_keys_setIdx]
    exact Or.inr rfl
  | some p =>
    have hm : prodKey e ∈ keys m := lookupIdx_some_mem_keys hl
    rcases step_eq_or_set m e with h2 | ⟨_, h2⟩ <;> rw [h2]
    · exact hm
    · rw [mem_keys_setIdx]; exact Or.inl hm

theorem mem_keys_step {m : Index} {e : Entry} {k : String} :
    k ∈ keys (step m e) ↔ k ∈ keys m ∨ (k = prodKey e ∧ prodKey e ≠ "") := by
  constructor
  · intro h
    rcases step_eq_or_set m e with h2 | ⟨hne, h2⟩
    · rw [h2] at h; exact Or.inl h
    · rw [h2, mem_keys_setIdx] at h
      rcases h with h | h
      · exact Or.inl h
      · exact Or.inr ⟨h, hne⟩
  · intro h
    rcases h with h | ⟨hk, hne⟩
    · rcases step_eq_or_set m e with h2 | ⟨_, h2⟩ <;> rw [h2]
      · exact h
      · rw [mem_keys_setIdx]; exact Or.inl h
    · subst hk; exact prodKey_mem_keys_step m e hne

theorem nodup_keys_step {m : Index} (e : Entry) (h : (keys m).Nodup) :
    (keys (step m e)).Nodup := by
  rcases step_eq_or_set m e with h2 | ⟨hne, h2⟩ <;> rw [h2]
  · exact h
  · by_cases hm : prodKey e ∈ keys m
    · rw [keys_setIdx_of_mem hm]; exact h
    · rw [setIdx_of_not_mem hm]
      have hkeys : keys (m ++ [(prodKey e, entryDate e, e)]) = keys m ++ [prodKey e] := by
        simp [keys]
      rw [hkeys]
      simp [List.nodup_append, h, hm]

theorem mem_step {m : Index} {e : Entry} {kv : String × Option PDate × Entry}
    (h : kv ∈ step m e) :
    kv ∈ m ∨ (kv = (prodKey e, entryDate e, e) ∧ prodKey e ≠ "") := by
  rcases step_eq_or_set m e with h2 | ⟨hne, h2⟩
  · rw [h2] at h; exact Or.inl h
  · rw [h2] at h
    rcases mem_setIdx h with h3 | h3
    · exact Or.inl h3
    · exact Or.inr ⟨h3, hne⟩

theorem mem_keys_foldl {es : List Entry} {m : Index} {k : String} :
    k ∈ keys (es.foldl step m) ↔ k ∈ keys m ∨ ∃ e ∈ es, prodKey e = k ∧ k ≠ "" := by
  induction es generalizing m with
  | nil => simp
  | cons e es ih =>
    rw [List.foldl_cons, ih, mem_keys_step]
    simp only [List.mem_cons]
    constructor
    · rintro ((h | ⟨hk, hne⟩) | ⟨e2, he2, hk2, hne⟩)
      · exact Or.inl h
      · exact Or.inr ⟨e, Or.inl rfl, hk.symm, by rw [hk]; exact hne⟩
      · exact Or.inr ⟨e2, Or.inr he2, hk2, hne⟩
    · rintro (h | ⟨e2, he2, hk2, hne⟩)
      · exact Or.inl (Or.inl h)
      · rcases he2 with he2 | he2
        · subst he2; exact Or.inl (Or.inr ⟨hk2.symm, by rw [hk2]; exact hne⟩)
        · exact Or.inr ⟨e2, he2, hk2, hne⟩

theorem nodup_keys_foldl {es : List Entry} {m : Index} (h : (keys m).Nodup) :
    (keys (es.foldl step m)).Nodup := by
  induction es generalizing m with
  | nil => exact h
  | cons e es ih => exact ih (nodup_keys_step e h)

theorem slots_foldl {P : Entry → Prop} {es : List Entry} {m : Index}
    (hm : ∀ kv ∈ m, kv.1 ≠ "" ∧ prodKey kv.2.2 = kv.1 ∧ kv.2.1 = entryDate kv.2.2 ∧ P kv.2.2)
    (hes : ∀ e ∈ es, P e) :
    ∀ kv ∈ es.foldl step m,
      kv.1 ≠ "" ∧ prodKey kv.2.2 = kv.1 ∧ kv.2.1 = entryDate kv.2.2 ∧ P kv.2.2 := by
  induction es generalizing m with
  | nil => exact hm
  | cons e es ih =>
    rw [List.foldl_cons]
    apply ih
    · intro kv hkv
      rcases mem_step hkv with h | ⟨heq, hne⟩
      · exact hm kv h
      · subst heq
        exact ⟨hne, rfl, rfl, hes e (List.mem_cons_self _ _)⟩
    · intro e2 he2
      exact hes e2 (List.mem_cons_of_mem _ he2)

theorem buildIndex_nodup (es : List Entry) : (keys (buildIndex es)).Nodup :=
  nodup_keys_foldl (by simp [keys_nil])

theorem mem_keys_buildIndex {es : List Entry} {k : String} :
    k ∈ keys (buildIndex es) ↔ ∃ e ∈ es, prodKey e = k ∧ k ≠ "" := by
  rw [buildIndex, mem_keys_foldl]
  simp [keys_nil]

theorem buildIndex_slots {es : List Entry} :
    ∀ kv ∈ buildIndex es,
      kv.1 ≠ "" ∧ prodKey kv.2.2 = kv.1 ∧ kv.2.1 = entryDate kv.2.2 ∧ kv.2.2 ∈ es :=
  slots_foldl (by simp) (fun _ he => he)

theorem mem_keys_of_mem {m : Index} {kv : String × Option PDate × Entry}
    (h : kv ∈ m) : kv.1 ∈ keys m := List.mem_map_of_mem Prod.fst h

theorem countP_fst_of_nodup {m : Index} {k : String} (h : (keys m).Nodup) :
    m.countP (fun kv => kv.1 == k) = if k ∈ keys m then 1 else 0 := by
  induction m with
  | nil => simp [keys_nil]
  | cons kv rest ih =>
    rw [keys_cons] at h ⊢
    obtain ⟨hnotin, hrest⟩ := List.nodup_cons.mp h
    rw [List.countP_cons, ih hrest]
    by_cases hk : kv.1 = k
    · subst hk
      simp [hnotin, List.mem_cons]
    · have hk2 : ¬ k = kv.1 := fun hh => hk hh.symm
      by_cases hmem : k ∈ keys rest <;> simp [hmem, List.mem_cons, hk2, hk]

/-!
The sort-key order is total and transitive, so the final sort is sorted
and a permutation of its input.
-/

theorem keyLE_total (a b : JValue) : keyLE a b = true ∨ keyLE b a = true := by
  cases a <;> cases b <;>
    simp only [keyLE, JValue.rank, decide_eq_true_eq] <;>
    exact le_total _ _

theorem keyLE_trans {a b c : JValue} (h1 : keyLE a b = true) (h2 : keyLE b c = true) :
    keyLE a c = true := by
  cases a <;> cases b <;> cases c <;>
    simp only [keyLE, JValue.rank, decide_eq_true_eq] at h1 h2 ⊢ <;>
    first
      | omega
      | exact le_trans h1 h2

instance : IsTotal Snapshot snapR := ⟨fun x y => keyLE_total (snapKey x) (snapKey y)⟩

instance : IsTrans Snapshot snapR := ⟨fun _ _ _ h1 h2 => keyLE_trans h1 h2⟩

theorem sortSnaps_perm (l : List Snapshot) : List.Perm (sortSnaps l) l :=
  List.perm_insertionSort snapR l

theorem sortSnaps_sorted (l : List Snapshot) : (sortSnaps l).Pairwise snapR :=
  List.sorted_insertionSort snapR l

/-!
Projection facts shared by the output-shape claims.
-/

theorem mem_reduceRecords {es : List Entry} {x : Snapshot} (h : x ∈ reduceRecords es) :
    ∃ kv ∈ buildIndex es, x = project kv.2.2 := by
  rw [reduceRecords] at h
  have h2 := (sortSnaps_perm _).mem_iff.mp h
  rcases List.mem_map.mp h2 with ⟨kv, hkv, hx⟩
  exact ⟨kv, hkv, hx.symm⟩

theorem normCode_project (e : Entry) :
    normCode ((project e).product_code) = prodKey e := by
  rw [prodKey]
  show normCode (orNone (jGet e "kode_produk")) = normCode (jGet e "kode_produk")
  by_cases h : truthy (jGet e "kode_produk") = true
  · rw [orNone, if_pos h]
  · rw [orNone, if_neg h, normCode, normCode, jOr, jOr, if_neg h]
    simp [truthy]

theorem truthy_jGet_of_prodKey_ne {e : Entry} (h : prodKey e ≠ "") :
    truthy (jGet e "kode_produk") = true := by
  by_contra hc
  apply h
  rw [prodKey, normCode, jOr, if_neg hc]
  decide

theorem truthy_product_code {e : Entry} (h : prodKey e ≠ "") :
    truthy ((project e).product_code) = true := by
  have ht := truthy_jGet_of_prodKey_ne h
  show truthy (orNone (jGet e "kode_produk")) = true
  rw [orNone, if_pos ht]
  exact ht

/-!
Two-record behaviour of the reducer, shared by the tie-break claims.
-/

/-- C1: for every record sequence and every key, the reducer's output has
exactly one snapshot whose normalized product code equals the key when the
key is nonempty and some input record normalizes to it, and none
otherwise; records whose key field is missing, empty or whitespace-only
are excluded, and an input with no valid key yields an empty output. -/
theorem c1_one_snapshot_per_key (es : List Entry) (k : String) :
    (reduceRecords es).countP (fun x => normCode x.product_code == k)
        = (if k ≠ "" ∧ ∃ e ∈ es, prodKey e = k then 1 else 0)
    ∧ ((∀ e ∈ es, prodKey e = "") → reduceRecords es = []) := by
  constructor
  · calc (reduceRecords es).countP (fun x => normCode x.product_code == k)
        = ((buildIndex es).map (fun kv => project kv.2.2)).countP
            (fun x => normCode x.product_code == k) :=
          (sortSnaps_perm _).countP_eq _
      _ = (buildIndex es).countP (fun kv => kv.1 == k) := by
          rw [List.countP_map]
          apply List.countP_congr
          intro kv hkv
          have hs := (buildIndex_slots kv hkv).2.1
          simp only [Function.comp_apply, normCode_project, hs]
      _ = if k ∈ keys (buildIndex es) then 1 else 0 :=
          countP_fst_of_nodup (buildIndex_nodup es)
      _ = if k ≠ "" ∧ ∃ e ∈ es, prodKey e = k then 1 else 0 := by
          by_cases hmem : k ∈ keys (buildIndex es)
          · rw [if_pos hmem, if_pos]
            rcases mem_keys_buildIndex.mp hmem with ⟨e, he, hk, hne⟩
            exact ⟨hne, e, he, hk⟩
          · rw [if_neg hmem, if_neg]
            rintro ⟨hne, e, he, hk⟩
            exact hmem (mem_keys_buildIndex.mpr ⟨e, he, hk, hne⟩)
  · intro hall
    have hnil : buildIndex es = [] := by
      cases hb : buildIndex es with
      | nil => rfl
      | cons kv rest =>
        exfalso
        have hmem : kv ∈ buildIndex es := by rw [hb]; exact List.mem_cons_self _ _
        obtain ⟨hne, hpk, _, hes⟩ := buildIndex_slots kv hmem
        exact hne (hpk.symm.trans (hall kv.2.2 hes))
    rw [reduceRecords, hnil]
    rfl

/-- Witness for C1: a single whitespace-only key yields an empty output. -/
theorem c1_one_snapshot_per_key_witness :
    (∀ e ∈ ([[("kode_produk", JValue.str "   ")]] : List Entry), prodKey e = "")
    ∧ reduceRecords [[("kode_produk", JValue.str "   ")]] = [] := by
  have hall : ∀ e ∈ ([[("kode_produk", JValue.str "   ")]] : List Entry), prodKey e = "" := by
    intro e he
    rw [List.mem_singleton] at he
    subst he
    decide
  exact ⟨hall, (c1_one_snapshot_per_key [[("kode_produk", JValue.str "   ")]] "").2 hall⟩

/-- A `kode_produk` field within the documented payload shape: a string, or
absent/falsy. -/
def strKeyOk (v : JValue) : Prop := (∃ s, v = .str s) ∨ truthy v = false

/-- The string content of a snapshot's sort key (`x.get("product_code") or ""`)
when the key is a string. -/
def keyStrOf (v : JValue) : String :=
  match jOr v (.str "") with
  | .str s => s
  | _ => ""

theorem product_code_str_or_null {e : Entry} (h : strKeyOk (jGet e "kode_produk")) :
    (∃ s, (project e).product_code = .str s) ∨ (project e).product_code = .null := by
  rcases h with ⟨s, hs⟩ | h
  · by_cases ht : truthy (jGet e "kode_produk") = true
    · left
      exact ⟨s, by show orNone _ = _; rw [orNone, if_pos ht, hs]⟩
    · right
      show orNone _ = _
      rw [orNone, if_neg ht]
  · right
    show orNone _ = _
    rw [orNone, if_neg (by simp [h])]

theorem snapKey_str {x : Snapshot}
    (h : (∃ s, x.product_code = .str s) ∨ x.product_code = .null) :
    snapKey x = .str (keyStrOf x.product_code) := by
  rcases h with ⟨s, hs⟩ | h
  · rw [snapKey, keyStrOf, hs]
    by_cases he : truthy (JValue.str s) = true <;> simp [jOr, he]
  · rw [snapKey, keyStrOf, h]
    simp [jOr, truthy]

theorem keyLE_str_iff {s t : String} : keyLE (.str s) (.str t) = true ↔ s ≤ t := by
  simp [keyLE]

/-- C9: every output snapshot of the reducer has a truthy (neither absent
nor empty) product code; and when the input records carry string (or
absent) `kode_produk` fields — the documented payload shape — the output
is sorted ascending by the product-code string under simple string
ordering. -/
theorem c9_sorted_output (es : List Entry) :
    (∀ x ∈ reduceRecords es, truthy x.product_code = true)
    ∧ ((∀ e ∈ es, strKeyOk (jGet e "kode_produk")) →
        (reduceRecords es).Pairwise
          (fun x y => keyStrOf x.product_code ≤ keyStrOf y.product_code)) := by
  constructor
  · intro x hx
    obtain ⟨kv, hkv, hx2⟩ := mem_reduceRecords hx
    obtain ⟨hne, hpk, _, _⟩ := buildIndex_slots kv hkv
    rw [hx2]
    exact truthy_product_code (by rw [hpk]; exact hne)
  · intro hstr
    have hsorted : (reduceRecords es).Pairwise snapR := sortSnaps_sorted _
    refine List.Pairwise.imp_of_mem ?_ hsorted
    intro x y hx hy hr
    have hxs : snapKey x = .str (keyStrOf x.product_code) := by
      obtain ⟨kv, hkv, hx2⟩ := mem_reduceRecords hx
      obtain ⟨_, _, _, hmem⟩ := buildIndex_slots kv hkv
      rw [hx2]
      exact snapKey_str (product_code_str_or_null (hstr _ hmem))
    have hys : snapKey y = .str (keyStrOf y.product_code) := by
      obtain ⟨kv, hkv, hy2⟩ := mem_reduceRecords hy
      obtain ⟨_, _, _, hmem⟩ := buildIndex_slots kv hkv
      rw [hy2]
      exact snapKey_str (product_code_str_or_null (hstr _ hmem))
    rw [snapR, hxs, hys, keyLE_str_iff] at hr
    exact hr

/-- Witness for C9: two string-keyed records come out sorted by code. -/
theorem c9_sorted_output_witness :
    (reduceRecords
        [[("kode_produk", JValue.str "B2")], [("kode_produk", JValue.str "A1")]]).Pairwise
      (fun x y => keyStrOf x.product_code ≤ keyStrOf y.product_code) :=
  (c9_sorted_output
      [[("kode_produk", JValue.str "B2")], [("kode_produk", JValue.str "A1")]]).2
    (by
      intro e he
      rw [List.mem_cons, List.mem_singleton] at he
      rcases he with he | he <;> subst he
      · exact Or.inl ⟨"B2", rfl⟩
      · exact Or.inl ⟨"A1", rfl⟩)

/-- C10: every output snapshot is the projection of an index slot's winning
record, its three fields being the record's raw `srs_date`, `srs_customer`
and `kode_produk` values with falsy values replaced by `None`; the product
code of a kept snapshot is never absent or empty, yet is the raw untrimmed
value, which can differ from the normalized key (shown by a whitespace
example). -/
theorem c10_projection_fields (es : List Entry) :
    (∀ x ∈ reduceRecords es, ∃ e,
        (∃ k d, (k, d, e) ∈ buildIndex es) ∧
        x.date = orNone (jGet e "srs_date") ∧
        x.customer = orNone (jGet e "srs_customer") ∧
        x.product_code = orNone (jGet e "kode_produk") ∧
        truthy x.product_code = true ∧
        normCode x.product_code = prodKey e)
    ∧ reduceRecords [[("kode_produk", JValue.str " A1 ")]]
        = [⟨JValue.null, JValue.null, JValue.str " A1 "⟩]
    ∧ prodKey [("kode_produk", JValue.str " A1 ")] = "A1" := by
  refine ⟨?_, rfl, by decide⟩
  intro x hx
  obtain ⟨kv, hkv, hx2⟩ := mem_reduceRecords hx
  obtain ⟨hne, hpk, _, _⟩ := buildIndex_slots kv hkv
  refine ⟨kv.2.2, ⟨kv.1, kv.2.1, hkv⟩, ?_, ?_, ?_, ?_, ?_⟩
  · rw [hx2]; rfl
  · rw [hx2]; rfl
  · rw [hx2]; rfl
  · rw [hx2]
    exact truthy_product_code (by rw [hpk]; exact hne)
  · rw [hx2, normCode_project]

/-- Witness for C10 at a concrete one-record input. -/
theorem c10_projection_fields_witness :
    ∃ e, (∃ k d, (k, d, e) ∈ buildIndex [[("kode_produk", JValue.str "A1"),
            ("srs_date", JValue.str ""), ("srs_customer", JValue.num 0)]]) ∧
      (Snapshot.mk JValue.null JValue.null (JValue.str "A1")).date
          = orNone (jGet e "srs_date") ∧
      (Snapshot.mk JValue.null JValue.null (JValue.str "A1")).customer
          = orNone (jGet e "srs_customer") ∧
      (Snapshot.mk JValue.null JValue.null (JValue.str "A1")).product_code
          = orNone (jGet e "kode_produk") ∧
      truthy (Snapshot.mk JValue.null JValue.null (JValue.str "A1")).product_code = true ∧
      normCode (Snapshot.mk JValue.null JValue.null (JValue.str "A1")).product_code = prodKey e :=
  (c10_projection_fields [[("kode_produk", JValue.str "A1"),
      ("srs_date", JValue.str ""), ("srs_customer", JValue.num 0)]]).1
    (Snapshot.mk JValue.null JValue.null (JValue.str "A1"))
    (by exact List.mem_singleton.mpr rfl)

/-!
The Resilient Fetcher (`fetch_json`, lines 112-135).  The network is
modelled by an oracle giving the outcome the guarded request of lines
115-117 would produce on each attempt number.
-/

/-- Retry limit `RETRY_LIMIT` (line 40). -/
def RETRY_LIMIT : Nat := 3

/-- Retry delay in seconds, `RETRY_DELAY` (line 41). -/
def RETRY_DELAY : Nat := 5

/-- The outcome of one attempt, named after the exception classes the
source distinguishes.  A `requests` `JSONDecodeError` subclasses both
`RequestException` and `json.JSONDecodeError`, and either except clause
breaks the loop, so the classification below is the observable one. -/
inductive Outcome where
  | timeout
  | connectionError
  | httpError
  | requestException
  | jsonDecodeError
  | success (v : JValue)

/-- The two transient kinds, retried while attempts remain. -/
def Outcome.transient : Outcome → Bool
  | .timeout => true
  | .connectionError => true
  | _ => false

/-- The three permanent kinds: the loop breaks immediately. -/
def Outcome.permanent : Outcome → Bool
  | .httpError => true
  | .requestException => true
  | .jsonDecodeError => true
  | _ => false

/-- The observable result of `fetch_json`: the returned value (`None` on
failure), the number of requests performed, and the sleeps performed
between attempts (each of `RETRY_DELAY` seconds). -/
structure FetchResult where
  value : Option JValue
  attemptsMade : Nat
  delays : List Nat
deriving Repr

/-- The fetch loop `for attempt in range(1, RETRY_LIMIT + 1)` with `fuel`
the number of remaining iterations; the sleep of lines 132-133 happens
only after a transient failure with `attempt < RETRY_LIMIT`. -/
def fetchAux (oracle : Nat → Outcome) (attempt fuel : Nat) (ds : List Nat) : FetchResult :=
  match fuel with
  | 0 => { value := none, attemptsMade := attempt - 1, delays := ds }
  | fuel2 + 1 =>
    match oracle attempt with
    | .success v => { value := some v, attemptsMade := attempt, delays := ds }
    | o =>
      if o.transient then
        if attempt < RETRY_LIMIT then
          fetchAux oracle (attempt + 1) fuel2 (ds ++ [RETRY_DELAY])
        else
          { value := none, attemptsMade := attempt, delays := ds }
      else
        { value := none, attemptsMade := attempt, delays := ds }

/-- `fetch_json` (lines 112-135). -/
def fetch_json (oracle : Nat → Outcome) : FetchResult :=
  fetchAux oracle 1 RETRY_LIMIT []

theorem fetchAux_succ (g : Nat → Outcome) (a fuel2 : Nat) (ds : List Nat) :
    fetchAux g a (fuel2 + 1) ds =
      match g a with
      | .success v => { value := some v, attemptsMade := a, delays := ds }
      | o =>
        if o.transient then
          if a < RETRY_LIMIT then fetchAux g (a + 1) fuel2 (ds ++ [RETRY_DELAY])
          else { value := none, attemptsMade := a, delays := ds }
        else { value := none, attemptsMade := a, delays := ds } := rfl

theorem Outcome.transient_cases {o : Outcome} (h : o.transient = true) :
    o = .timeout ∨ o = .connectionError := by
  cases o <;> simp_all [Outcome.transient]

theorem fetchAux_attempts_le (g : Nat → Outcome) :
    ∀ (fuel attempt : Nat) (ds : List Nat),
      (fetchAux g attempt fuel ds).attemptsMade ≤ attempt - 1 + fuel := by
  intro fuel
  induction fuel with
  | zero => intro a ds; simp [fetchAux]
  | succ fuel2 ih =>
    intro a ds
    rw [fetchAux_succ]
    cases g a with
    | success v => simp; omega
    | timeout =>
      simp only [Outcome.transient]
      by_cases ha : a < RETRY_LIMIT <;> simp [ha]
      · have := ih (a + 1) (ds ++ [RETRY_DELAY])
        omega
      · omega
    | connectionError =>
      simp only [Outcome.transient]
      by_cases ha : a < RETRY_LIMIT <;> simp [ha]
      · have := ih (a + 1) (ds ++ [RETRY_DELAY])
        omega
      · omega
    | httpError => simp [Outcome.transient]; omega
    | requestException => simp [Outcome.transient]; omega
    | jsonDecodeError => simp [Outcome.transient]; omega

theorem fetchAux_delays (g : Nat → Outcome) :
    ∀ (fuel attempt : Nat) (ds : List Nat), (∀ d ∈ ds, d = RETRY_DELAY) →
      ∀ d ∈ (fetchAux g attempt fuel ds).delays, d = RETRY_DELAY := by
  intro fuel
  induction fuel with
  | zero => intro a ds h; simpa [fetchAux] using h
  | succ fuel2 ih =>
    intro a ds h
    rw [fetchAux_succ]
    cases g a with
    | success v => simpa using h
    | timeout =>
      simp only [Outcome.transient]
      by_cases ha : a < RETRY_LIMIT <;> simp [ha]
      · exact ih (a + 1) (ds ++ [RETRY_DELAY]) (by
          intro d hd
          rcases List.mem_append.mp hd with hd | hd
          · exact h d hd
          · rw [List.mem_singleton] at hd; exact hd)
      · exact h
    | connectionError =>
      simp only [Outcome.transient]
      by_cases ha : a < RETRY_LIMIT <;> simp [ha]
      · exact ih (a + 1) (ds ++ [RETRY_DELAY]) (by
          intro d hd
          rcases List.mem_append.mp hd with hd | hd
          · exact h d hd
          · rw [List.mem_singleton] at hd; exact hd)
      · exact h
    | httpError => simp [Outcome.transient]; exact h
    | requestException => simp [Outcome.transient]; exact h
    | jsonDecodeError => simp [Outcome.transient]; exact h

/-- C4: the fetcher retries only transient failures, makes at most
`RETRY_LIMIT` attempts, sleeps a fixed `RETRY_DELAY` between attempts
while attempts remain, and against a source failing transiently on
attempts 1 and 2 and succeeding on attempt 3 it returns the payload with
3 attempts made and two 5-second delays. -/
theorem c4_transient_retry (oracle : Nat → Outcome) (v : JValue)
    (h1 : (oracle 1).transient = true) (h2 : (oracle 2).transient = true)
    (h3 : oracle 3 = .success v) :
    fetch_json oracle
        = { value := some v, attemptsMade := 3, delays := [RETRY_DELAY, RETRY_DELAY] }
    ∧ (∀ g : Nat → Outcome, (fetch_json g).attemptsMade ≤ RETRY_LIMIT)
    ∧ (∀ g : Nat → Outcome, ∀ d ∈ (fetch_json g).delays, d = RETRY_DELAY) := by
  refine ⟨?_, ?_, ?_⟩
  · rcases Outcome.transient_cases h1 with ho1 | ho1 <;>
      rcases Outcome.transient_cases h2 with ho2 | ho2 <;>
      · rw [fetch_json]
        show fetchAux oracle 1 (2 + 1) [] = _
        rw [fetchAux_succ, ho1]
        show fetchAux oracle 2 (1 + 1) [RETRY_DELAY] = _
        rw [fetchAux_succ, ho2]
        show fetchAux oracle 3 (0 + 1) [RETRY_DELAY, RETRY_DELAY] = _
        rw [fetchAux_succ, h3]
  · intro g
    have := fetchAux_attempts_le g RETRY_LIMIT 1 []
    rw [fetch_json]
    omega
  · intro g
    exact fetchAux_delays g RETRY_LIMIT 1 [] (by intro d hd; cases hd)

/-- Witness for C4 at a concrete oracle. -/
theorem c4_transient_retry_witness :
    fetch_json (fun n => if n = 1 then .timeout else if n = 2 then .connectionError
        else .success .null)
      = { value := some .null, attemptsMade := 3, delays := [RETRY_DELAY, RETRY_DELAY] } :=
  (c4_transient_retry
      (fun n => if n = 1 then .timeout else if n = 2 then .connectionError
        else .success .null)
      .null rfl rfl rfl).1

/-- C5: any permanent failure kind (HTTP status error, other request
exception, or JSON decode failure) on the first attempt makes the fetcher
return failure after exactly one attempt, with no retry and no delay. -/
theorem c5_permanent_aborts (oracle : Nat → Outcome)
    (h : (oracle 1).permanent = true) :
    fetch_json oracle = { value := none, attemptsMade := 1, delays := [] } := by
  have hcases : oracle 1 = .httpError ∨ oracle 1 = .requestException
      ∨ oracle 1 = .jsonDecodeError := by
    cases ho : oracle 1 <;> rw [ho] at h <;> simp_all [Outcome.permanent]
  rw [fetch_json]
  show fetchAux oracle 1 (2 + 1) [] = _
  rcases hcases with ho | ho | ho <;> rw [fetchAux_succ, ho] <;> rfl

/-- Witness for C5: an HTTP status error aborts after one attempt. -/
theorem c5_permanent_aborts_witness :
    fetch_json (fun _ => Outcome.httpError)
      = { value := none, attemptsMade := 1, delays := [] } :=
  c5_permanent_aborts (fun _ => Outcome.httpError) rfl

/-!
The Atomic Store (`read_json` / `write_json`, lines 51-65).  The file
system is a map from path to contents; a file holds either bytes that
decode as UTF-8 and parse as a JSON document (`jsonDoc v`, on which
`json.load` yields `v`, relying on the round-trip fidelity of the `json`
library over JSON values), bytes that decode as UTF-8 but fail to parse
as JSON (`corrupt`, raising the `json.JSONDecodeError` that line 57
catches), or bytes that are not valid UTF-8 (`binary`, on which reading
the text-mode handle raises `UnicodeDecodeError`, which line 57 does not
catch); a missing path models a nonexistent file. -/

/-- Contents of one stored file. -/
inductive FileContent where
  | jsonDoc (v : JValue)
  | corrupt
  | binary

/-- The file-system state. -/
def FS : Type := String → Option FileContent

/-- The temporary sibling `path.with_suffix(path.suffix + ".tmp")` of line
62: since the new suffix is the old suffix followed by `.tmp`, the result
is always the original path with `.tmp` appended. -/
def tmpPath (p : String) : String := p ++ ".tmp"

/-- Serialization into the temporary file (lines 63-64). -/
def writeTmp (fs : FS) (p : String) (v : JValue) : FS :=
  fun q => if q = tmpPath p then some (.jsonDoc v) else fs q

/-- The atomic rename `tmp.replace(path)` of line 65. -/
def replaceFile (fs : FS) (src dst : String) : FS :=
  fun q => if q = dst then fs src else if q = src then none else fs q

/-- `write_json` (lines 61-65). -/
def write_json (fs : FS) (p : String) (v : JValue) : FS :=
  replaceFile (writeTmp fs p v) (tmpPath p) p

/-- `read_json` (lines 51-58): `None` when the path does not exist; the
`try` of lines 54-58 catches only `json.JSONDecodeError`, so contents
that are not valid UTF-8 raise `UnicodeDecodeError`, which propagates. -/
def read_json (fs : FS) (p : String) : Except PyError (Option JValue) :=
  match fs p with
  | none => .ok none
  | some (.jsonDoc v) => .ok (some v)
  | some .corrupt => .ok none
  | some .binary => .error .unicodeDecodeError

/-- Counterexample to C8 as stated: loading a location whose contents fail
to parse as JSON because they are not even valid UTF-8 raises an uncaught
`UnicodeDecodeError` instead of returning Absent. -/
theorem c8_counterexample_undecodable :
    read_json (fun _ => some .binary) "data/stock_requests.json"
      = .error .unicodeDecodeError := rfl

/-- C8 amended: persisting then loading returns the original value, and
loading a nonexistent location or one whose UTF-8 contents fail to parse
as JSON returns Absent; but loading contents that are not valid UTF-8
raises an uncaught `UnicodeDecodeError`. -/
theorem c8_persist_load (fs : FS) (p : String) (v : JValue) :
    read_json (write_json fs p v) p = .ok (some v)
    ∧ (fs p = none → read_json fs p = .ok none)
    ∧ (fs p = some .corrupt → read_json fs p = .ok none)
    ∧ (fs p = some .binary → read_json fs p = .error .unicodeDecodeError) := by
  refine ⟨?_, ?_, ?_, ?_⟩
  · simp [read_json, write_json, replaceFile, writeTmp]
  · intro h; simp [read_json, h]
  · intro h; simp [read_json, h]
  · intro h; simp [read_json, h]

/-- Witness for the amended C8 on an empty file system. -/
theorem c8_persist_load_witness :
    read_json (write_json (fun _ => none) "data/stock_requests.json" (JValue.num 1))
        "data/stock_requests.json" = .ok (some (JValue.num 1))
    ∧ read_json (fun _ => (none : Option FileContent)) "data/stock_requests.json" = .ok none :=
  ⟨(c8_persist_load (fun _ => none) "data/stock_requests.json" (JValue.num 1)).1,
   (c8_persist_load (fun _ => none) "data/stock_requests.json" (JValue.num 1)).2.1 rfl⟩

/-!
The Orchestrator (`main`, lines 210-245), modelled as `runMain`.  Fetch
results per flow are inputs (the network is external).  Writing a raw
snapshot is recorded in `rawSaved`; the file system is assumed writable
for the raw files, which section 7 of the specification places outside
the exit-status contract.  The derived computation runs inside the `try`
of lines 229-235: a reducer failure comes from
`build_last_production_from_stock` itself, and a failure while persisting
the derived file is modelled by the `derivedWriteOk` input; both are
caught and only logged. -/

/-- The three Endpoint Flows, in the iteration order of the `urls` dict
(lines 213-217). -/
inductive EndpointFlow where
  | sample
  | stock
  | sales
deriving DecidableEq, Repr

/-- Observable orchestrator state: the `all_ok` flag, which raw files were
saved, whether the derived file was saved, and whether a derived-stage
failure was caught and logged (line 235). -/
structure RunState where
  allOk : Bool
  rawSaved : List EndpointFlow
  derivedSaved : Bool
  derivedErrorLogged : Bool
deriving Repr, DecidableEq

/-- One iteration of the loop of lines 221-238. -/
def processFlow (fetched : EndpointFlow → Option JValue) (derivedWriteOk : Bool)
    (st : RunState) (f : EndpointFlow) : RunState :=
  match fetched f with
  | some payload =>
    let st1 := { st with rawSaved := st.rawSaved ++ [f] }
    if f = EndpointFlow.stock then
      match build_last_production_from_stock payload with
      | .ok _ =>
        if derivedWriteOk then { st1 with derivedSaved := true }
        else { st1 with derivedErrorLogged := true }
      | .error _ => { st1 with derivedErrorLogged := true }
    else st1
  | none => { st with allOk := false }

/-- `main` (lines 210-245): process the three flows in order and return
the exit status with the final state. -/
def runMain (fetched : EndpointFlow → Option JValue) (derivedWriteOk : Bool) : Nat × RunState :=
  let st := [EndpointFlow.sample, EndpointFlow.stock, EndpointFlow.sales].foldl
    (processFlow fetched derivedWriteOk)
    { allOk := true, rawSaved := [], derivedSaved := false, derivedErrorLogged := false }
  (if st.allOk then 0 else 1, st)

/-- C6: the exit status is 0 exactly when all three fetches succeeded and 1
otherwise, independently of the derived computation's or derived write's
outcome, and the reduction-source raw snapshot is persisted exactly when
its fetch succeeded. -/
theorem c6_exit_status (fetched : EndpointFlow → Option JValue) (derivedWriteOk : Bool) :
    (runMain fetched derivedWriteOk).1
        = (if (fetched .sample).isSome && (fetched .stock).isSome && (fetched .sales).isSome
           then 0 else 1)
    ∧ (EndpointFlow.stock ∈ (runMain fetched derivedWriteOk).2.rawSaved
        ↔ (fetched .stock).isSome = true) := by
  rcases Option.eq_none_or_eq_some (fetched .sample) with hs | ⟨vsample, hs⟩ <;>
    rcases Option.eq_none_or_eq_some (fetched .stock) with ht | ⟨vstock, ht⟩ <;>
    rcases Option.eq_none_or_eq_some (fetched .sales) with hl | ⟨vsales, hl⟩ <;>
    simp only [runMain, List.foldl, processFlow, hs, ht, hl] <;>
    first
      | (cases build_last_production_from_stock vstock <;> cases derivedWriteOk <;> simp)
      | simp

/-!
Malformed-payload behaviour of the reducer.
-/

/-- True exactly on Python dicts. -/
def isObj : JValue → Bool
  | .obj _ => true
  | _ => false

theorem collectEntries_ok {es : List JValue} (h : ∀ x ∈ es, isObj x = true) :
    ∃ recs, collectEntries es = Except.ok recs := by
  induction es with
  | nil => exact ⟨[], rfl⟩
  | cons x xs ih =>
    obtain ⟨fields, hx⟩ : ∃ fields, x = .obj fields := by
      have hh := h x (List.mem_cons_self _ _)
      cases x with
      | obj fields => exact ⟨fields, rfl⟩
      | null => simp [isObj] at hh
      | bool b => simp [isObj] at hh
      | num n => simp [isObj] at hh
      | str s => simp [isObj] at hh
      | arr elems => simp [isObj] at hh
    obtain ⟨recs, hrecs⟩ := ih (fun y hy => h y (List.mem_cons_of_mem _ hy))
    subst hx
    exact ⟨fields :: recs, by simp [collectEntries, asEntry, hrecs]⟩

